import Mathlib

/-!
Verification of the framing/streaming layer of `programs/fileio.c`
(FiniteStateEntropy fork).  The simple frame format, its block headers,
the compress/decompress loops, the buffered (ZBUFF) decompress loop and
the keystream-selector hook are embedded as executable Lean definitions,
translated branch-by-branch from the C source, and the specified
properties are proved or refuted about them.

External collaborators that the C file only calls (the entropy codecs,
`ZBUFF_*`) are kept as parameters with the call contract of the source.
Two leaf algorithms whose implementation lives outside the provided
sources (`XXH32` from xxhash and the `salsa20` keystream routine) are
modelled from the spec, as noted on their definitions.
-/

set_option maxRecDepth 2000

/-! ## Bit-level helpers (Basic Types / Memory operations of fileio.c) -/

/-- Bit mask constant `BIT5` of fileio.c. -/
def BIT5 : Nat := 0x20

/-- bit 6 mask. -/
def BIT6 : Nat := 0x40

/-- bit 7 mask. -/
def BIT7 : Nat := 0x80

/-- Left rotation of a 32-bit word on `Nat`, the `XXH_rotl32` / salsa20 `R` primitive. -/
def rotl32 (x n : Nat) : Nat := ((x <<< n) ||| (x >>> (32 - n))) % 4294967296

/-- Wrapping 32-bit addition. -/
def add32 (a b : Nat) : Nat := (a + b) % 4294967296

/-- Wrapping 32-bit multiplication. -/
def mul32 (a b : Nat) : Nat := (a * b) % 4294967296

/-- Little-endian 32-bit read from the first four bytes (`FIO_readLE32`). -/
def FIO_readLE32 (bs : List Nat) : Nat :=
  bs.getD 0 0 + (bs.getD 1 0 <<< 8) + (bs.getD 2 0 <<< 16) + (bs.getD 3 0 <<< 24)

/-- Little-endian 32-bit serialization into four bytes (`FIO_writeLE32`). -/
def FIO_writeLE32bytes (v : Nat) : List Nat :=
  [v % 256, (v >>> 8) % 256, (v >>> 16) % 256, (v >>> 24) % 256]

/-! ## Salsa20 keystream (modelled) -/

/-- State of the salsa20 core: sixteen 32-bit words. -/
abbrev Salsa16 :=
  Nat × Nat × Nat × Nat × Nat × Nat × Nat × Nat ×
  Nat × Nat × Nat × Nat × Nat × Nat × Nat × Nat

/-- Modelled from the spec: the salsa20 quarterround (the keystream
generator of §9 whose implementation is outside the provided sources;
standard Salsa20 per its published definition). -/
def quarterround : Nat × Nat × Nat × Nat → Nat × Nat × Nat × Nat
  | (y0, y1, y2, y3) =>
    let z1 := y1 ^^^ rotl32 (add32 y0 y3) 7
    let z2 := y2 ^^^ rotl32 (add32 z1 y0) 9
    let z3 := y3 ^^^ rotl32 (add32 z2 z1) 13
    let z0 := y0 ^^^ rotl32 (add32 z3 z2) 18
    (z0, z1, z2, z3)

/-- Modelled from the spec: salsa20 rowround. -/
def rowround : Salsa16 → Salsa16
  | (y0, y1, y2, y3, y4, y5, y6, y7, y8, y9, y10, y11, y12, y13, y14, y15) =>
    let (z0, z1, z2, z3) := quarterround (y0, y1, y2, y3)
    let (z5, z6, z7, z4) := quarterround (y5, y6, y7, y4)
    let (z10, z11, z8, z9) := quarterround (y10, y11, y8, y9)
    let (z15, z12, z13, z14) := quarterround (y15, y12, y13, y14)
    (z0, z1, z2, z3, z4, z5, z6, z7, z8, z9, z10, z11, z12, z13, z14, z15)

/-- Modelled from the spec: salsa20 columnround. -/
def columnround : Salsa16 → Salsa16
  | (x0, x1, x2, x3, x4, x5, x6, x7, x8, x9, x10, x11, x12, x13, x14, x15) =>
    let (y0, y4, y8, y12) := quarterround (x0, x4, x8, x12)
    let (y5, y9, y13, y1) := quarterround (x5, x9, x13, x1)
    let (y10, y14, y2, y6) := quarterround (x10, x14, x2, x6)
    let (y15, y3, y7, y11) := quarterround (x15, x3, x7, x11)
    (y0, y1, y2, y3, y4, y5, y6, y7, y8, y9, y10, y11, y12, y13, y14, y15)

/-- Modelled from the spec: salsa20 doubleround. -/
def doubleround (st : Salsa16) : Salsa16 := rowround (columnround st)

/-- Iterated doublerounds. -/
def salsa20Rounds : Nat → Salsa16 → Salsa16
  | 0, st => st
  | n + 1, st => salsa20Rounds n (doubleround st)

/-- Modelled from the spec: the salsa20 hash core (10 doublerounds then a
wordwise 32-bit addition of the input state). -/
def salsa20Core (st : Salsa16) : Salsa16 :=
  match st, salsa20Rounds 10 st with
  | (x0, x1, x2, x3, x4, x5, x6, x7, x8, x9, x10, x11, x12, x13, x14, x15),
    (z0, z1, z2, z3, z4, z5, z6, z7, z8, z9, z10, z11, z12, z13, z14, z15) =>
    (add32 x0 z0, add32 x1 z1, add32 x2 z2, add32 x3 z3,
     add32 x4 z4, add32 x5 z5, add32 x6 z6, add32 x7 z7,
     add32 x8 z8, add32 x9 z9, add32 x10 z10, add32 x11 z11,
     add32 x12 z12, add32 x13 z13, add32 x14 z14, add32 x15 z15)

/-- Little-endian serialization of one 32-bit word. -/
def leBytes4 (w : Nat) : List Nat :=
  [w % 256, (w >>> 8) % 256, (w >>> 16) % 256, (w >>> 24) % 256]

/-- Modelled from the spec: the initial salsa20 expansion state used by
fileio.c — the four "expand 32-byte k" constants with the all-zero 32-byte
key (`uint8_t key[32] = { 0 }`), zero nonce (`uint64_t nonce = 0`) and
zero block counter. -/
def salsa20KeyZeroState : Salsa16 :=
  (0x61707865, 0, 0, 0, 0,
   0x3320646e, 0, 0, 0, 0,
   0x79622d32, 0, 0, 0, 0,
   0x6b206574)

/-- Modelled from the spec: the first eight bytes of the salsa20 keystream
for the zero key/nonce — the only keystream bytes ever applied, because
the source passes `sizeof(buffer_pointer)` (= 8) as the length. -/
def salsa20Keystream8 : List Nat :=
  match salsa20Core salsa20KeyZeroState with
  | (w0, w1, _, _, _, _, _, _, _, _, _, _, _, _, _, _) => leBytes4 w0 ++ leBytes4 w1

/-- Modelled from the spec: the effect of `salsa20(buf, sizeof(buf), key, nonce)`
in fileio.c on the byte contents of a buffer — XOR of the first
pointer-size (8) bytes with the fixed keystream, the remainder untouched
(§9: "a keystream generator applied to buffers using the size of a
pointer rather than the actual length of the buffer"). -/
def salsa20buf (buf : List Nat) : List Nat :=
  List.zipWith (fun b k => b ^^^ k) buf (salsa20Keystream8 ++ List.replicate buf.length 0)

/-! ## XXH32 (modelled) -/

/-- XXH32 prime 1. -/
def PRIME32_1 : Nat := 2654435761

/-- XXH32 prime 2. -/
def PRIME32_2 : Nat := 2246822519

/-- XXH32 prime 3. -/
def PRIME32_3 : Nat := 3266489917

/-- XXH32 prime 4. -/
def PRIME32_4 : Nat := 668265263

/-- XXH32 prime 5. -/
def PRIME32_5 : Nat := 374761393

/-- Little-endian 32-bit lane from four bytes. -/
def lane32 (b0 b1 b2 b3 : Nat) : Nat := b0 + (b1 <<< 8) + (b2 <<< 16) + (b3 <<< 24)

/-- Modelled from the spec: one XXH32 accumulator round. -/
def XXH32_round (acc lane : Nat) : Nat :=
  mul32 (rotl32 (add32 acc (mul32 lane PRIME32_2)) 13) PRIME32_1

/-- Modelled from the spec: XXH32 16-byte stripe phase; returns the four
accumulators and the remaining (< 16) bytes. -/
def XXH32_stripes : Nat × Nat × Nat × Nat → List Nat → (Nat × Nat × Nat × Nat) × List Nat
  | acc, b0 :: b1 :: b2 :: b3 :: b4 :: b5 :: b6 :: b7 ::
         b8 :: b9 :: b10 :: b11 :: b12 :: b13 :: b14 :: b15 :: rest =>
    match acc with
    | (v1, v2, v3, v4) =>
      XXH32_stripes
        (XXH32_round v1 (lane32 b0 b1 b2 b3), XXH32_round v2 (lane32 b4 b5 b6 b7),
         XXH32_round v3 (lane32 b8 b9 b10 b11), XXH32_round v4 (lane32 b12 b13 b14 b15))
        rest
  | acc, l => (acc, l)

/-- Modelled from the spec: XXH32 4-byte tail lanes. -/
def XXH32_lanes : Nat → List Nat → Nat × List Nat
  | h, b0 :: b1 :: b2 :: b3 :: rest =>
    XXH32_lanes (mul32 (rotl32 (add32 h (mul32 (lane32 b0 b1 b2 b3) PRIME32_3)) 17) PRIME32_4) rest
  | h, l => (h, l)

/-- Modelled from the spec: XXH32 trailing single bytes. -/
def XXH32_bytes : Nat → List Nat → Nat
  | h, b :: rest => XXH32_bytes (mul32 (rotl32 (add32 h (mul32 b PRIME32_5)) 11) PRIME32_1) rest
  | h, [] => h

/-- Modelled from the spec: XXH32 final avalanche. -/
def XXH32_avalanche (h0 : Nat) : Nat :=
  let h1 := h0 ^^^ (h0 >>> 15)
  let h2 := mul32 h1 PRIME32_2
  let h3 := h2 ^^^ (h2 >>> 13)
  let h4 := mul32 h3 PRIME32_3
  h4 ^^^ (h4 >>> 16)

/-- Modelled from the spec: the `xxh32` streaming hash named by the
checksum contract (§4.1/§6); its implementation (xxhash) is outside the
provided sources.  One-shot digest of a byte list; the streaming
`XXH32_update` calls of fileio.c are modelled by hashing the
concatenation of all updated byte runs in encounter order, which is
exactly what the streaming state computes. -/
def XXH32 (seed : Nat) (input : List Nat) : Nat :=
  let len := input.length
  let hrest :=
    if 16 ≤ len then
      match XXH32_stripes
        (add32 (add32 seed PRIME32_1) PRIME32_2, add32 seed PRIME32_2,
         seed % 4294967296, (seed + 4294967296 - PRIME32_1) % 4294967296) input with
      | ((v1, v2, v3, v4), rest) =>
        ((rotl32 v1 1 + rotl32 v2 7 + rotl32 v3 12 + rotl32 v4 18) % 4294967296, rest)
    else (add32 seed PRIME32_5, input)
  match hrest with
  | (h0, rest) =>
    let h1 := add32 h0 len
    match XXH32_lanes h1 rest with
    | (h2, rest2) => XXH32_avalanche (XXH32_bytes h2 rest2)

/-! ## Constants and block types of fileio.c -/

/-- Magic number of the fse family (`FIO_magicNumber_fse`). -/
def FIO_magicNumber_fse : Nat := 0x183E2309

/-- Magic number of the huff0 family (`FIO_magicNumber_huff0`). -/
def FIO_magicNumber_huff0 : Nat := 0x183E3309

/-- Magic number of the zlibh family (`FIO_magicNumber_zlibh`). -/
def FIO_magicNumber_zlibh : Nat := 0x183E4309

/-- Maximum supported block-size exponent, `FIO_maxBlockSizeID` (6, i.e. 64 KB blocks). -/
def FIO_maxBlockSizeID : Nat := 6

/-- Nominal block size of an exponent, `FIO_blockID_to_blockSize`: `(1 << id) KB`. -/
def FIO_blockID_to_blockSize (id : Nat) : Nat := (1 <<< id) * 1024

/-- Block types `bType_t` of fileio.c: `{ bt_compressed, bt_raw, bt_rle, bt_crc }`. -/
inductive bType_t where
  | bt_compressed
  | bt_raw
  | bt_rle
  | bt_crc
deriving DecidableEq

/-- The numeric tag of a block type, as laid down by the C enum order
(compressed = 0, raw = 1, rle = 2, crc = 3). -/
def bTypeTag : bType_t → Nat
  | .bt_compressed => 0
  | .bt_raw => 1
  | .bt_rle => 2
  | .bt_crc => 3

/-- The successive `fread` results of the compress loop: the source split
into consecutive `blockSize`-byte reads (the last one possibly shorter;
a zero-byte read ends the loop).  Fuel-driven so that it evaluates. -/
def chunksOfAux (n : Nat) : Nat → List Nat → List (List Nat)
  | 0, _ => []
  | _, [] => []
  | fuel + 1, b :: bs => ((b :: bs).take n) :: chunksOfAux n fuel ((b :: bs).drop n)

/-- All block-sized reads of a source byte list (`n` is never 0 in the
program: the minimum nominal block size is 1 KiB). -/
def chunksOf (n : Nat) (l : List Nat) : List (List Nat) := chunksOfAux n l.length l

/-! ## Block descriptions and block headers -/

/-- A block-description tuple `(type, isFullSize, regeneratedSize,
compressedSize-if-compressed)` (§4.1 of the spec; the data of the
`Write cBlock` switch of `FIO_compressFilename`). -/
inductive BlockDesc where
  | compressed (isFullSize : Bool) (regeneratedSize compressedSize : Nat)
  | raw (isFullSize : Bool) (regeneratedSize : Nat)
  | rle (isFullSize : Bool) (regeneratedSize : Nat)
deriving DecidableEq

/-- Block-header bytes emitted by the `Write cBlock` switch of
`FIO_compressFilename` (fileio.c lines 463-524), branch by branch.
Note the non-full `rle` branch writes `bt_raw << 6` as its type byte —
exactly as the source does at line 495. -/
def FIO_encodeBlockHeader : BlockDesc → List Nat
  | .raw true _ => [(bTypeTag .bt_raw <<< 6) + BIT5]
  | .raw false r => [bTypeTag .bt_raw <<< 6, (r >>> 8) % 256, r % 256]
  | .rle true _ => [(bTypeTag .bt_rle <<< 6) + BIT5]
  | .rle false r => [bTypeTag .bt_raw <<< 6, (r >>> 8) % 256, r % 256]
  | .compressed true _ c => [(bTypeTag .bt_compressed <<< 6) + BIT5, (c >>> 8) % 256, c % 256]
  | .compressed false r c =>
    [bTypeTag .bt_compressed <<< 6, (r >>> 8) % 256, r % 256, (c >>> 8) % 256, c % 256]

/-- The block description selected by the compress-loop switch from the
adapter result `cSize` (0 = raw sentinel, 1 = rle sentinel, otherwise
compressed) and the full-size test `inSize == inputBlockSize`. -/
def FIO_blockDescOf (cSize inSize blockSize : Nat) : BlockDesc :=
  if cSize = 0 then .raw (inSize == blockSize) inSize
  else if cSize = 1 then .rle (inSize == blockSize) inSize
  else .compressed (inSize == blockSize) inSize cSize

/-- All bytes appended to the output stream for one block by the
`Write cBlock` switch: header, then the raw bytes (raw), the single
stored byte `in_buff[0]` (rle), or the coded bytes (compressed).
`inBuff` is the staging buffer content at that point. -/
def FIO_writeBlock (cSize inSize blockSize : Nat) (inBuff cBytes : List Nat) : List Nat :=
  FIO_encodeBlockHeader (FIO_blockDescOf cSize inSize blockSize) ++
    (if cSize = 0 then inBuff.take inSize
     else if cSize = 1 then [inBuff.headD 0]
     else cBytes)

/-- Result of decoding one block header in the decompress loop. -/
inductive ParseResult where
  | crcReached (rest : List Nat)
  | block (d : BlockDesc) (rest : List Nat)
deriving DecidableEq

/-- The `Decode header` part of the `FIO_decompressFilename` main loop
(fileio.c lines 670-696): type from bits 7-6 of the first byte, full-size
flag from bit 5, a 2-byte big-endian `regeneratedSize` when not full,
a further 2-byte big-endian `compressedSize` when compressed.  Error
codes are those of the source (35/36 short reads); note that no
comparison of `regeneratedSize` against the nominal block size is
performed anywhere. -/
def FIO_parseBlockHeader (blockSize : Nat) (bs : List Nat) : Except Nat ParseResult :=
  match bs with
  | [] => .error 34
  | b :: rest =>
    let btype := (b &&& (BIT7 + BIT6)) >>> 6
    if btype = bTypeTag .bt_crc then .ok (.crcReached rest)
    else
      let full := (b &&& BIT5) != 0
      let sized : Except Nat (Nat × List Nat) :=
        if full then .ok (blockSize, rest)
        else
          match rest with
          | s1 :: s2 :: r2 => .ok ((s1 <<< 8) + s2, r2)
          | _ => .error 35
      match sized with
      | .error e => .error e
      | .ok (rSize, r2) =>
        if btype = bTypeTag .bt_compressed then
          match r2 with
          | c1 :: c2 :: r3 => .ok (.block (.compressed full rSize ((c1 <<< 8) + c2)) r3)
          | _ => .error 36
        else if btype = bTypeTag .bt_raw then .ok (.block (.raw full rSize) r2)
        else .ok (.block (.rle full rSize) r2)

/-- Regenerated size of a decoded block description. -/
def FIO_regSize : BlockDesc → Nat
  | .compressed _ r _ => r
  | .raw _ r => r
  | .rle _ r => r

/-- The `cSize` the decompress loop derives per block type: the declared
compressed size, `rSize` for raw, 1 for rle. -/
def FIO_cSizeOf : BlockDesc → Nat
  | .compressed _ _ c => c
  | .raw _ r => r
  | .rle _ _ => 1

/-! ## Running checksum and trailer of the simple-format encoder -/

/-- The bytes fed to `XXH32_update` during `FIO_compressFilename`: each
block as read, after the per-block `salsa20` pass over the staging
buffer (the update happens after the `salsa20` call at line 451). -/
def FIO_checksumFed (chunks : List (List Nat)) : List Nat :=
  (chunks.map salsa20buf).flatten

/-- The 22-bit checksum value of the frame: `(XXH32_digest >> 5) & (2^22 - 1)`
(fileio.c lines 531-532). -/
def FIO_encodeChecksum (chunks : List (List Nat)) : Nat :=
  (XXH32 0 (FIO_checksumFed chunks) >>> 5) &&& ((1 <<< 22) - 1)

/-- The 3-byte `STREAMCRC` trailer (fileio.c lines 533-535): big-endian
22-bit checksum with the `bt_crc` tag in the top two bits. -/
def FIO_checksumTrailer (chunks : List (List Nat)) : List Nat :=
  let checksum := FIO_encodeChecksum chunks
  [((checksum >>> 16) + (bTypeTag .bt_crc <<< 6)) % 256,
   (checksum >>> 8) % 256, checksum % 256]

/-! ## Simple-format compress pipeline -/

/-- The main compression loop of `FIO_compressFilename` (lines 444-527):
per chunk, apply the `salsa20` pass to the staging buffer, call the
codec adapter on the (scrambled) buffer with the scrambler value of the
running block index, and append the block bytes of the `Write cBlock`
switch.  `comp src scrambler = some (cSize, codedBytes)` is the adapter
contract (`FSE_isError` results are `none`, error 23). -/
def FIO_compressBlocksModel (comp : List Nat → Nat → Option (Nat × List Nat))
    (scrF : Nat → Nat) (blockSize : Nat) : List (List Nat) → Nat → Except Nat (List Nat)
  | [], _ => .ok []
  | chunk :: rest, index =>
    let sc := salsa20buf chunk
    match comp sc (scrF index) with
    | none => .error 23
    | some (cSize, cBytes) =>
      match FIO_compressBlocksModel comp scrF blockSize rest (index + 1) with
      | .error e => .error e
      | .ok tail => .ok (FIO_writeBlock cSize chunk.length blockSize sc cBytes ++ tail)

/-- Model of `FIO_compressFilename` as a stream transformer: frame header (magic
number little-endian, block-size id byte), the encoded blocks, then the
checksum trailer. -/
def FIO_compressFilenameModel (comp : List Nat → Nat → Option (Nat × List Nat))
    (scrF : Nat → Nat) (magicNumber blockSizeId : Nat) (src : List Nat) :
    Except Nat (List Nat) :=
  let blockSize := FIO_blockID_to_blockSize blockSizeId
  let chunks := chunksOf blockSize src
  match FIO_compressBlocksModel comp scrF blockSize chunks 0 with
  | .error e => .error e
  | .ok body =>
    .ok (FIO_writeLE32bytes magicNumber ++ [blockSizeId % 256] ++ body ++
         FIO_checksumTrailer chunks)

/-! ## Simple-format decompress pipeline -/

/-- The main loop of `FIO_decompressFilename` (lines 664-756).  `hdr` is
the one header byte already read ahead (the initial 1-byte read, then the
extra byte of each `cSize + 1` payload read), `input` the unread rest of
the stream.  `decomp payload dstCapacity scrambler` is the codec
decode of the adapter (`none` = `FSE_isError`, error 39).  Written bytes:
the decoded buffer after the `salsa20` pass for compressed blocks, the
`memset` fill after the `salsa20` pass for rle, and the staging-buffer
payload verbatim (no `salsa20` — it is applied to `out_buff` only) for
raw.  The scrambler index is incremented only in the `bt_compressed`
arm, as in the source.  Fuel exceeds one per loop iteration whenever it
is at least `input.length + 1`, since each iteration consumes at least
one input byte. -/
def FIO_decompressLoopModel (decomp : List Nat → Nat → Nat → Option (List Nat))
    (scrF : Nat → Nat) (blockSize : Nat) :
    Nat → Nat → List Nat → Nat → Except Nat (List Nat)
  | 0, _, _, _ => .error 0
  | fuel + 1, hdr, input, index =>
    match FIO_parseBlockHeader blockSize (hdr :: input) with
    | .error e => .error e
    | .ok (.crcReached rest) => if rest.length < 2 then .error 43 else .ok []
    | .ok (.block d rest) =>
      let cSize := FIO_cSizeOf d
      match rest.drop cSize with
      | [] => .error 38
      | nextHdr :: rest2 =>
        let payload := rest.take cSize
        match d with
        | .compressed _ rSize _ =>
          match decomp payload rSize (scrF index) with
          | none => .error 39
          | some ob =>
            match FIO_decompressLoopModel decomp scrF blockSize fuel nextHdr rest2 (index + 1) with
            | .error e => .error e
            | .ok tail => .ok (salsa20buf ob ++ tail)
        | .raw _ _ =>
          match FIO_decompressLoopModel decomp scrF blockSize fuel nextHdr rest2 index with
          | .error e => .error e
          | .ok tail => .ok (payload ++ tail)
        | .rle _ rSize =>
          match FIO_decompressLoopModel decomp scrF blockSize fuel nextHdr rest2 index with
          | .error e => .error e
          | .ok tail => .ok (salsa20buf (List.replicate rSize (payload.headD 0)) ++ tail)

/-- Model of `FIO_decompressFilename` as a stream transformer: check the 5-byte
frame header (error 30 short, 31 unknown magic, 32 bad block-size id),
read the first block-header byte (error 34 on empty), then run the main
loop.  The codec adapter selected by the magic-number switch is the
`decomp` parameter (the codecs are external collaborators). -/
def FIO_decompressFilenameModel (decomp : List Nat → Nat → Nat → Option (List Nat))
    (scrF : Nat → Nat) (input : List Nat) : Except Nat (List Nat) :=
  if input.length < 5 then .error 30
  else if FIO_readLE32 input = FIO_magicNumber_fse ∨
          FIO_readLE32 input = FIO_magicNumber_huff0 ∨
          FIO_readLE32 input = FIO_magicNumber_zlibh then
    (if FIO_maxBlockSizeID < input.getD 4 0 then .error 32
     else
       match input.drop 5 with
       | [] => .error 34
       | hdr :: rest =>
         FIO_decompressLoopModel decomp scrF
           (FIO_blockID_to_blockSize (input.getD 4 0)) (rest.length + 1) hdr rest 0)
  else .error 31

/-! ## Entry of `FIO_decompressFilename` with resource accounting (§7) -/

/-- Observable state of `FIO_decompressFilename` up to the magic-number
dispatch: bytes written to the destination, `fclose` calls executed,
file handles opened by `get_fileHandle` (source and destination, for an
existing input and a fresh writable output), and the `EXM_THROW` code if
the process was terminated.  `EXM_THROW` calls `exit()` directly, so no
`fclose` of the two handles runs on any error path here. -/
structure DecFront where
  written : List Nat
  fcloseCount : Nat
  openHandles : Nat
  error : Option Nat
deriving DecidableEq

/-- Model of `FIO_decompressFilename` from entry to the block-size check (lines
608-636): read the 5-byte frame header (error 30 if short), switch on
the magic number (error 31 if unknown), check the block-size id
(error 32 if above `FIO_maxBlockSizeID`).  Nothing is written to the
destination and no handle is closed on any of these paths. -/
def FIO_decompressFront (input : List Nat) : DecFront :=
  if input.length < 5 then ⟨[], 0, 2, some 30⟩
  else if FIO_readLE32 input = FIO_magicNumber_fse ∨
          FIO_readLE32 input = FIO_magicNumber_huff0 ∨
          FIO_readLE32 input = FIO_magicNumber_zlibh then
    (if FIO_maxBlockSizeID < input.getD 4 0 then ⟨[], 0, 2, some 32⟩
     else ⟨[], 0, 2, none⟩)
  else ⟨[], 0, 2, some 31⟩

/-! ## Buffered (ZBUFF) decompress loop of `FIO_decompressFrame` -/

/-- Result of the main decompression loop of `FIO_decompressFrame`:
the staged input byte count at each `ZBUFF_decompressContinue` call, the
accumulated frame size, and the `EXM_THROW` code if any. -/
structure FrameLoopResult where
  calls : List Nat
  frameSize : Nat
  error : Option Nat
deriving DecidableEq

/-- The `while (1)` loop of `FIO_decompressFrame` (lines 1050-1075).
`codec k staged = some (consumed, decodedSize, toRead)` abstracts the
`ZBUFF_decompressContinue` call number `k` on `staged` staged input
bytes (`none` = `ZBUFF_isError`, error 36).  After each call the source
writes the decoded block, breaks if `toRead == 0`, throws 38 if input
was not fully consumed, throws 34 if `toRead` exceeds the staging
capacity `cap`, then refills the staging buffer with an `fread` of
exactly `toRead` bytes (throw 35 when fewer than `toRead` remain in the
file, modelled by `avail`). -/
def FIO_decompressFrameLoop (codec : Nat → Nat → Option (Nat × Nat × Nat)) (cap : Nat) :
    Nat → Nat → Nat → Nat → FrameLoopResult
  | 0, _, _, _ => ⟨[], 0, none⟩
  | fuel + 1, avail, staged, k =>
    match codec k staged with
    | none => ⟨[staged], 0, some 36⟩
    | some (consumed, decoded, toRead) =>
      if toRead = 0 then ⟨[staged], decoded, none⟩
      else if staged - consumed ≠ 0 then ⟨[staged], decoded, some 38⟩
      else if cap < toRead then ⟨[staged], decoded, some 34⟩
      else if avail < toRead then ⟨[staged], decoded, some 35⟩
      else
        let r := FIO_decompressFrameLoop codec cap fuel (avail - toRead) toRead (k + 1)
        ⟨staged :: r.calls, decoded + r.frameSize, r.error⟩

/-! ## Keystream selector (§4.4) -/

/-- The selector `empty_scrambler` installed when no password is
supplied — constantly zero. -/
def empty_scrambler (_password : Option (List Nat)) (_index : Nat) : Nat := 0

/-- The derivation `simlple_scrambler` (fileio.c lines 325-328):
`abs(getNumber64ForPassword(password + index)) % (unsigned)password[index % password_length]`.
`g` abstracts `getNumber64ForPassword` (isaac64, an external
collaborator) as a function of the start offset `index`.  The two modulo
operations of the source are explicit: the subscript reduces `index`
modulo the password length, and the derived number is reduced modulo the
selected password byte.  A zero divisor in either modulo (an empty
password, or a zero byte) is C undefined behaviour, modelled as `none`. -/
def simlple_scrambler (g : Nat → Int) (password : List Nat) (index : Nat) : Option Nat :=
  if h : password.length = 0 then none
  else
    let d := password.get ⟨index % password.length, Nat.mod_lt index (Nat.pos_of_ne_zero h)⟩
    if d = 0 then none else some ((g index).natAbs % d)

/-- Which scrambler derivation a pump installs, per the
`if (password != NULL)` selection repeated in `FIO_compressFilename`,
`FIO_decompressFilename`, `FIO_compressZstdFilename_extRess` and
`FIO_decompressFrame`. -/
inductive ScramblerChoice where
  | simple (pw : List Nat)
  | empty
deriving DecidableEq

/-- The selection itself: a non-NULL password installs `simlple_scrambler`
with that password (after setting `password_length`), a NULL password
installs `empty_scrambler`. -/
def FIO_scramblerChoice : Option (List Nat) → ScramblerChoice
  | some pw => .simple pw
  | none => .empty

/-- The per-block scrambler value actually derived under a given
selection. -/
def FIO_selectScrambler (g : Nat → Int) : Option (List Nat) → Nat → Option Nat
  | some pw => fun index => simlple_scrambler g pw index
  | none => fun index => some (empty_scrambler none index)

/-- The byte content of the string literal `"TODO passwordValue"` that
`FIO_compressMultipleFilenames` passes as `passwordValue` for every
file of the batch (fileio.c line 969). -/
def todoPasswordBytes : List Nat :=
  [84, 79, 68, 79, 32, 112, 97, 115, 115, 119, 111, 114, 100, 86, 97, 108, 117, 101]

/-- The password argument handed to `FIO_compressZstdFilename_extRess`
for each of the `nbFiles` files of a `FIO_compressMultipleFilenames`
batch: the fixed literal, for every file. -/
def FIO_compressMultipleFilenamesPasswords (nbFiles : Nat) : List (Option (List Nat)) :=
  (List.range nbFiles).map fun _ => some todoPasswordBytes

/-! ## Scrambler block indices (§4.4 / C5) -/

/-- Indices passed to `scrambler_func` by the compress loop of
`FIO_compressFilename`: `index++` on every block read, starting at 0. -/
def FIO_encodeScramblerIndices (nbBlocks : Nat) : List Nat := List.range nbBlocks

/-- Indices passed to `scrambler_func` by the decompress loop of
`FIO_decompressFilename`, starting the counter at `i`: `index++` is
executed only in the `bt_compressed` arm of the decode switch. -/
def FIO_decodeScramblerIndicesFrom : List bType_t → Nat → List Nat
  | [], _ => []
  | t :: ts, i =>
    if t = .bt_compressed then i :: FIO_decodeScramblerIndicesFrom ts (i + 1)
    else FIO_decodeScramblerIndicesFrom ts i

/-- Indices consumed by the decode side over a frame whose data blocks
have the given types, counter starting at 0. -/
def FIO_decodeScramblerIndices (ts : List bType_t) : List Nat :=
  FIO_decodeScramblerIndicesFrom ts 0

/-! ## Concrete adapters used as witnesses -/

/-- A codec adapter that always reports the incompressible sentinel
(result 0) — a legal behaviour under the Codec Adapter contract (§2). -/
def incompressibleAdapter : List Nat → Nat → Option (Nat × List Nat) := fun _ _ => some (0, [])

/-- A decode adapter that always fails; suitable for streams that
contain no compressed block, where it is never invoked. -/
def nullDecompressor : List Nat → Nat → Nat → Option (List Nat) := fun _ _ _ => none

/-- The scrambler-value function in force with no password: constant 0. -/
def emptyScramblerF : Nat → Nat := fun index => empty_scrambler none index

/-! ## Claim theorems -/

/-- The `salsa20` pass preserves the byte count of the buffer. -/
theorem salsa20buf_length (l : List Nat) : (salsa20buf l).length = l.length := by
  simp only [salsa20buf, List.length_zipWith, List.length_append, List.length_replicate]
  omega

/-- Claim C1 (round-trip `decode(encode(S)) == S` for every byte
sequence, codec and exponent), evaluated at a failing input: a 1-byte
source `[42]`, fse family, exponent 0, adapter reporting the
incompressible sentinel.  The per-block `salsa20` pass scrambles the
staging buffer before the raw payload is written, decode copies raw
payloads verbatim without reversing it, and the round-trip returns
`[42 xor 154] = [176]`, not `[42]`. -/
theorem FIO_simple_roundtrip_fails :
  (FIO_compressFilenameModel incompressibleAdapter emptyScramblerF
      FIO_magicNumber_fse 0 [42]).bind
      (FIO_decompressFilenameModel nullDecompressor emptyScramblerF) =
    Except.ok (salsa20buf [42])
  ∧ salsa20buf [42] ≠ [42] := by
  exact ⟨rfl, by decide⟩

/-- Claim C2 (an RLE-sentinel block is emitted with type tag `10` and a
1-byte payload at every block size), evaluated at a failing input: a
5-byte block (shorter than the 1024-byte nominal size) whose adapter
result is the RLE sentinel 1 is written with first header byte 64, whose
type bits decode to `bt_raw` (tag 1), not `bt_rle` (tag 2); the full-size
case does carry the RLE tag. -/
theorem FIO_rle_nonfull_wrong_tag :
  FIO_writeBlock 1 5 1024 [7, 7, 7, 7, 7] [] = [64, 0, 5, 7]
  ∧ ((64 : Nat) &&& (BIT7 + BIT6)) >>> 6 = bTypeTag .bt_raw
  ∧ bTypeTag .bt_raw ≠ bTypeTag .bt_rle
  ∧ FIO_writeBlock 1 1024 1024 (List.replicate 1024 7) [] =
      [(bTypeTag .bt_rle <<< 6) + BIT5, 7] := by
  exact ⟨rfl, rfl, by decide, rfl⟩

/-- Claim C3 counterexample: header decode is not the inverse of header
encode on every valid tuple — the non-full RLE description `(rle, not
full, 5)` encodes to a header that decodes as `(raw, not full, 5)`. -/
theorem FIO_blockHeader_roundtrip_cex :
  FIO_parseBlockHeader 1024 (FIO_encodeBlockHeader (.rle false 5)) =
    .ok (.block (.raw false 5) [])
  ∧ BlockDesc.raw false 5 ≠ BlockDesc.rle false 5 := by
  exact ⟨rfl, by decide⟩

/-- A complete simple-format frame for the fse family, exponent 0
(1024-byte nominal blocks), containing one RLE block whose header
declares `regeneratedSize = 2048`, followed by the checksum trailer. -/
def FIO_c4input : List Nat := [9, 35, 62, 24, 0, 128, 8, 0, 7, 192, 0, 0]

/-- Claim C4 (a declared `regeneratedSize` above the nominal block size
fails with a framing error before payload materialization), evaluated at
a failing input: the decoder accepts the frame without any error and
materializes 2048 output bytes for a block of a frame whose negotiated
nominal block size is 1024 (in the C program this is a `memset` of 2048
bytes into the 1024-byte `out_buff`). -/
theorem FIO_decode_oversized_accepted :
  FIO_decompressFilenameModel nullDecompressor emptyScramblerF FIO_c4input =
    .ok (salsa20buf (List.replicate 2048 7) ++ [])
  ∧ (salsa20buf (List.replicate 2048 7) ++ []).length = 2048
  ∧ FIO_blockID_to_blockSize (FIO_c4input.getD 4 0) = 1024
  ∧ 1024 < 2048 := by
  refine ⟨rfl, ?_, rfl, by decide⟩
  simp only [List.append_nil, salsa20buf_length, List.length_replicate]

/-- Claim C5 counterexample: the scrambler-index sequences of the two
sides differ as soon as one block is not Compressed — for the block-type
sequence `[raw, compressed]`, encode consumes indices `[0, 1]` while
decode consumes `[0]`. -/
theorem FIO_scramblerIndices_mismatch_cex :
  FIO_decodeScramblerIndices [.bt_raw, .bt_compressed] = [0]
  ∧ FIO_encodeScramblerIndices 2 = [0, 1]
  ∧ ([0] : List Nat) ≠ [0, 1] := by
  exact ⟨rfl, rfl, by decide⟩

/-- Claim C6 (checksum over exactly the original bytes, split
independent), evaluated at failing inputs: for a 1-byte read `[0]` the
bytes fed to the hash are `[154]`, not `[0]` (the `salsa20` pass runs
before `XXH32_update`); the trailer checksum differs from the value the
claim prescribes; and the checksum accumulation depends on how the same
content is split into reads, because each read re-applies the keystream
to its own first bytes. -/
theorem FIO_checksum_not_over_original :
  FIO_checksumFed [[0]] ≠ [0]
  ∧ FIO_encodeChecksum [[0]] ≠ (XXH32 0 [0] >>> 5) &&& ((1 <<< 22) - 1)
  ∧ FIO_encodeChecksum [[0], [0]] ≠ FIO_encodeChecksum [[0, 0]] := by
  exact ⟨by decide, by decide, by decide⟩

/-- Claim C7 counterexample: on the all-zero 5-byte header (unknown
magic number) decode terminates with framing error 31 having written no
byte — but the two open file handles are not closed: `EXM_THROW`
leaves the function through `exit()` without running the `fclose`
cleanup, so the number of executed closes differs from the number of
owned handles. -/
theorem FIO_decompress_unknownMagic_cex :
  (FIO_decompressFront [0, 0, 0, 0, 0]).error = some 31
  ∧ (FIO_decompressFront [0, 0, 0, 0, 0]).written = []
  ∧ (FIO_decompressFront [0, 0, 0, 0, 0]).fcloseCount = 0
  ∧ (FIO_decompressFront [0, 0, 0, 0, 0]).openHandles = 2
  ∧ (FIO_decompressFront [0, 0, 0, 0, 0]).fcloseCount ≠
      (FIO_decompressFront [0, 0, 0, 0, 0]).openHandles := by
  exact ⟨rfl, rfl, rfl, rfl, by decide⟩

/-- Claim C7 as amended: on every input whose 5-byte header is readable
but whose magic number is none of the three known values, decode stops
with framing error 31, zero bytes written to the destination — but no
`fclose` runs before the failure: the error path terminates the process
via `exit()` while both opened handles are still open. -/
theorem FIO_decompress_unknownMagic_amended (input : List Nat)
    (h5 : 5 ≤ input.length)
    (h1 : FIO_readLE32 input ≠ FIO_magicNumber_fse)
    (h2 : FIO_readLE32 input ≠ FIO_magicNumber_huff0)
    (h3 : FIO_readLE32 input ≠ FIO_magicNumber_zlibh) :
    FIO_decompressFront input = ⟨[], 0, 2, some 31⟩ := by
  unfold FIO_decompressFront
  have hlt : ¬ input.length < 5 := by omega
  have hor : ¬ (FIO_readLE32 input = FIO_magicNumber_fse ∨
      FIO_readLE32 input = FIO_magicNumber_huff0 ∨
      FIO_readLE32 input = FIO_magicNumber_zlibh) := by
    intro hc
    rcases hc with hc | hc | hc
    · exact h1 hc
    · exact h2 hc
    · exact h3 hc
  rw [if_neg hlt, if_neg hor]

/-- Witness for `FIO_decompress_unknownMagic_amended` at the concrete
input `[1, 2, 3, 4, 5]` (magic number 0x04030201). -/
theorem FIO_decompress_unknownMagic_amended_witness :
    FIO_decompressFront [1, 2, 3, 4, 5] = ⟨[], 0, 2, some 31⟩ :=
  FIO_decompress_unknownMagic_amended [1, 2, 3, 4, 5]
    (by decide) (by decide) (by decide) (by decide)

/-- Claim C10: for a non-NULL non-empty password whose selected byte is
non-zero, `simlple_scrambler` derives
`|getNumber64ForPassword| % password[index % password_length]` — taking
`index` modulo the password length to pick the divisor byte and reducing
the derived number modulo that byte; and for the non-NULL empty password
the first modulo divides by zero already at block index 0, so the
derivation is only well-defined when the secret is non-empty. -/
theorem simlple_scrambler_partial_moduli (g : Nat → Int) (pw : List Nat) (index : Nat)
    (hne : pw ≠ []) (hd : pw.getD (index % pw.length) 0 ≠ 0) :
    simlple_scrambler g pw index =
      some ((g index).natAbs % pw.getD (index % pw.length) 0)
    ∧ simlple_scrambler g [] 0 = none := by
  have hlen : pw.length ≠ 0 := by simpa [List.length_eq_zero] using hne
  have hx : index % pw.length < pw.length := Nat.mod_lt index (Nat.pos_of_ne_zero hlen)
  have hgd : pw.get ⟨index % pw.length, hx⟩ = pw.getD (index % pw.length) 0 := by
    rw [List.getD_eq_getElem?_getD, List.getElem?_eq_getElem hx, Option.getD_some,
      List.get_eq_getElem]
  constructor
  · have hd2 : pw.get ⟨index % pw.length, hx⟩ ≠ 0 := by rwa [hgd]
    unfold simlple_scrambler
    rw [dif_neg hlen, if_neg hd2, hgd]
  · rfl

/-- Witness for `simlple_scrambler_partial_moduli` at password `[3]`,
block index 0, derived number 7: the value is `7 % 3 = 1`, and the empty
password yields no value. -/
theorem simlple_scrambler_partial_moduli_witness :
    simlple_scrambler (fun _ => (7 : Int)) [3] 0 = some 1
    ∧ simlple_scrambler (fun _ => (7 : Int)) [] 0 = none := by
  have h := simlple_scrambler_partial_moduli (fun _ => (7 : Int)) [3] 0
    (by decide) (by decide)
  exact ⟨by simpa using h.1, h.2⟩

/-- Claim C9: every file of a `FIO_compressMultipleFilenames` batch is
compressed with the password argument fixed to the literal
`"TODO passwordValue"`; consequently the installed selector is
`simlple_scrambler` with that fixed string — never the constant-zero
(no-secret) selector — and the scrambler value of every block is derived from
it. -/
theorem FIO_multi_batch_fixed_password (nbFiles u : Nat) (h : u < nbFiles)
    (g : Nat → Int) (index : Nat) :
    (FIO_compressMultipleFilenamesPasswords nbFiles)[u]? = some (some todoPasswordBytes)
    ∧ FIO_scramblerChoice (some todoPasswordBytes) = .simple todoPasswordBytes
    ∧ FIO_scramblerChoice (some todoPasswordBytes) ≠ .empty
    ∧ FIO_selectScrambler g (some todoPasswordBytes) index =
        simlple_scrambler g todoPasswordBytes index := by
  refine ⟨?_, rfl, by decide, rfl⟩
  simp [FIO_compressMultipleFilenamesPasswords, List.getElem?_map, List.getElem?_range h,
    List.getElem?_replicate, h]

/-- Witness for `FIO_multi_batch_fixed_password`: the second file of a
three-file batch gets the fixed literal password. -/
theorem FIO_multi_batch_fixed_password_witness :
    (FIO_compressMultipleFilenamesPasswords 3)[1]? = some (some todoPasswordBytes) :=
  (FIO_multi_batch_fixed_password 3 1 (by decide) (fun _ => 0) 0).1

/-- The number of Compressed blocks among the data blocks of a frame. -/
def countCompressed : List bType_t → Nat
  | [] => 0
  | t :: ts => countCompressed ts + (if t = .bt_compressed then 1 else 0)

/-- No more Compressed blocks than blocks. -/
theorem countCompressed_le (ts : List bType_t) : countCompressed ts ≤ ts.length := by
  induction ts with
  | nil => simp [countCompressed]
  | cons t ts ih =>
    simp only [countCompressed, List.length_cons]
    by_cases h : t = .bt_compressed
    · rw [if_pos h]; omega
    · rw [if_neg h]; omega

/-- All blocks are Compressed exactly when the Compressed count equals
the block count. -/
theorem countCompressed_eq_length_iff (ts : List bType_t) :
    countCompressed ts = ts.length ↔ ∀ t ∈ ts, t = .bt_compressed := by
  induction ts with
  | nil => simp [countCompressed]
  | cons t ts ih =>
    have hle := countCompressed_le ts
    by_cases h : t = .bt_compressed
    · subst h
      simp only [countCompressed, List.length_cons, List.mem_cons]
      rw [if_pos trivial]
      constructor
      · intro he x hx
        rcases hx with rfl | hx
        · rfl
        · exact (ih.mp (by omega)) x hx
      · intro hall
        have hts : countCompressed ts = ts.length :=
          ih.mpr (fun x hx => hall x (Or.inr hx))
        omega
    · simp only [countCompressed, List.length_cons, List.mem_cons]
      rw [if_neg h]
      constructor
      · intro he
        exact absurd he (by omega)
      · intro hall
        exact absurd (hall t (Or.inl rfl)) h

/-- The decode-side scrambler indices starting from counter `i` are the
first `countCompressed ts` naturals shifted by `i`. -/
theorem FIO_decodeScramblerIndicesFrom_eq (ts : List bType_t) (i : Nat) :
    FIO_decodeScramblerIndicesFrom ts i =
      (List.range (countCompressed ts)).map (· + i) := by
  induction ts generalizing i with
  | nil => simp [FIO_decodeScramblerIndicesFrom, countCompressed]
  | cons t ts ih =>
    by_cases h : t = .bt_compressed
    · have hmap : (fun n => Nat.succ n + i) = fun n => n + (i + 1) := by
        funext n; omega
      simp only [FIO_decodeScramblerIndicesFrom, countCompressed, ih (i + 1)]
      rw [if_pos h, if_pos h, List.range_succ_eq_map]
      simp only [List.map_cons, List.map_map, Nat.zero_add]
      rw [show ((fun x => x + i) ∘ Nat.succ) = fun n => n + (i + 1) from funext fun n => by
        simp only [Function.comp_apply]
        omega]
    · simp only [FIO_decodeScramblerIndicesFrom, countCompressed, ih i]
      rw [if_neg h, if_neg h, Nat.add_zero]

/-- Claim C5 as amended: the encode side consumes scrambler indices
`0, 1, 2, …`, one per block; the decode side increments its counter only
in the Compressed arm, so it consumes exactly `0, …, countCompressed - 1`
(the index of a block being the number of Compressed blocks before it),
and the two sequences coincide precisely when every block of the frame
is Compressed; with no secret supplied the derived value is the
constant zero. -/
theorem FIO_scramblerIndices_characterization (ts : List bType_t) (g : Nat → Int)
    (idx : Nat) :
    FIO_decodeScramblerIndices ts = List.range (countCompressed ts)
    ∧ (FIO_decodeScramblerIndices ts = FIO_encodeScramblerIndices ts.length ↔
        ∀ t ∈ ts, t = .bt_compressed)
    ∧ FIO_selectScrambler g none idx = some 0 := by
  have h1 : FIO_decodeScramblerIndices ts = List.range (countCompressed ts) := by
    simpa using FIO_decodeScramblerIndicesFrom_eq ts 0
  refine ⟨h1, ?_, rfl⟩
  rw [h1, FIO_encodeScramblerIndices]
  constructor
  · intro he
    have hc : countCompressed ts = ts.length := by
      have hlen := congrArg List.length he
      simpa [List.length_range] using hlen
    exact (countCompressed_eq_length_iff ts).mp hc
  · intro hall
    rw [(countCompressed_eq_length_iff ts).mpr hall]

/-- Witness for `FIO_scramblerIndices_characterization`: for the
all-Compressed frame `[compressed]` the two sides agree. -/
theorem FIO_scramblerIndices_characterization_witness :
    FIO_decodeScramblerIndices [.bt_compressed] = FIO_encodeScramblerIndices 1 :=
  (FIO_scramblerIndices_characterization [.bt_compressed] (fun _ => 0) 0).2.1.mpr
    (by decide)

/-- Validity of a block-description tuple against the negotiated nominal
block size: a full-size block regenerates exactly the nominal size (its
header elides the size field), a non-full size and a compressed size
must fit their 16-bit big-endian fields. -/
def FIO_validBlockDesc (blockSize : Nat) : BlockDesc → Prop
  | .compressed full r c =>
      (full = true → r = blockSize) ∧ (full = false → r < 65536) ∧ c < 65536
  | .raw full r => (full = true → r = blockSize) ∧ (full = false → r < 65536)
  | .rle full r => (full = true → r = blockSize) ∧ (full = false → r < 65536)

/-- Big-endian 16-bit serialization round-trips below 2^16. -/
theorem be16_reconstruct (r : Nat) (h : r < 65536) :
    ((r >>> 8) % 256) <<< 8 + r % 256 = r := by
  have h1 : r >>> 8 = r / 256 := by
    rw [Nat.shiftRight_eq_div_pow]
  have h2 : (r / 256 % 256) <<< 8 = (r / 256 % 256) * 256 := by
    rw [Nat.shiftLeft_eq]
  rw [h1, h2]
  omega

/-- Claim C3 as amended: for every valid block-description tuple, header
encoding is total and yields 1, 3 or 5 bytes, and header decode is its
exact inverse for every tuple except the non-full RLE one, which decodes
as a Raw description with the same sizes (the non-full RLE header is
emitted with the Raw type tag). -/
theorem FIO_blockHeader_roundtrip_amended (blockSize : Nat) (d : BlockDesc)
    (hv : FIO_validBlockDesc blockSize d) :
    ((FIO_encodeBlockHeader d).length = 1 ∨ (FIO_encodeBlockHeader d).length = 3 ∨
      (FIO_encodeBlockHeader d).length = 5)
    ∧ ((∀ r, d ≠ .rle false r) →
        FIO_parseBlockHeader blockSize (FIO_encodeBlockHeader d) = .ok (.block d []))
    ∧ (∀ r, d = .rle false r →
        FIO_parseBlockHeader blockSize (FIO_encodeBlockHeader d) =
          .ok (.block (.raw false r) [])) := by
  cases d with
  | compressed full r c =>
    obtain ⟨hfull, hnf, hc⟩ := hv
    cases full
    · have hr := hnf rfl
      refine ⟨Or.inr (Or.inr rfl), fun _ => ?_, fun r2 hr2 => by cases hr2⟩
      show Except.ok (ParseResult.block
        (.compressed false (((r >>> 8) % 256) <<< 8 + r % 256)
          (((c >>> 8) % 256) <<< 8 + c % 256)) []) = _
      rw [be16_reconstruct r hr, be16_reconstruct c hc]
    · have hr := (hfull rfl).symm
      subst hr
      refine ⟨Or.inr (Or.inl rfl), fun _ => ?_, fun r2 hr2 => by cases hr2⟩
      show Except.ok (ParseResult.block
        (.compressed true blockSize (((c >>> 8) % 256) <<< 8 + c % 256)) []) = _
      rw [be16_reconstruct c hc]
  | raw full r =>
    obtain ⟨hfull, hnf⟩ := hv
    cases full
    · have hr := hnf rfl
      refine ⟨Or.inr (Or.inl rfl), fun _ => ?_, fun r2 hr2 => by cases hr2⟩
      show Except.ok (ParseResult.block
        (.raw false (((r >>> 8) % 256) <<< 8 + r % 256)) []) = _
      rw [be16_reconstruct r hr]
    · have hr := (hfull rfl).symm
      subst hr
      exact ⟨Or.inl rfl, fun _ => rfl, fun r2 hr2 => by cases hr2⟩
  | rle full r =>
    obtain ⟨hfull, hnf⟩ := hv
    cases full
    · have hr := hnf rfl
      refine ⟨Or.inr (Or.inl rfl), fun hno => absurd rfl (hno r), fun r2 hr2 => ?_⟩
      cases hr2
      show Except.ok (ParseResult.block
        (.raw false (((r >>> 8) % 256) <<< 8 + r % 256)) []) = _
      rw [be16_reconstruct r hr]
    · have hr := (hfull rfl).symm
      subst hr
      exact ⟨Or.inl rfl, fun _ => rfl, fun r2 hr2 => by cases hr2⟩

/-- Witness for `FIO_blockHeader_roundtrip_amended`: the non-full
compressed description `(compressed, not full, 5, 7)` round-trips
through its 5-byte header. -/
theorem FIO_blockHeader_roundtrip_amended_witness :
    FIO_parseBlockHeader 1024 (FIO_encodeBlockHeader (.compressed false 5 7)) =
      .ok (.block (.compressed false 5 7) []) :=
  (FIO_blockHeader_roundtrip_amended 1024 (.compressed false 5 7) (by
    show (false = true → (5 : Nat) = 1024) ∧ (false = false → (5 : Nat) < 65536) ∧
      (7 : Nat) < 65536
    decide)).2.1
    (fun r2 hr2 => nomatch hr2)

/-- When the loop makes at least one codec call, the first recorded call
is made with the staged byte count the loop was entered with. -/
theorem FIO_frameLoop_calls_shape (codec : Nat → Nat → Option (Nat × Nat × Nat))
    (cap fuel avail staged k : Nat) :
    (FIO_decompressFrameLoop codec cap fuel avail staged k).calls = [] ∨
    ∃ tl, (FIO_decompressFrameLoop codec cap fuel avail staged k).calls = staged :: tl := by
  cases fuel with
  | zero => exact Or.inl rfl
  | succ fuel =>
    cases hc : codec k staged with
    | none =>
      simp only [FIO_decompressFrameLoop, hc]
      exact Or.inr ⟨[], rfl⟩
    | some trip =>
      obtain ⟨c0, d0, t0⟩ := trip
      simp only [FIO_decompressFrameLoop, hc]
      split
      · exact Or.inr ⟨[], rfl⟩
      · split
        · exact Or.inr ⟨[], rfl⟩
        · split
          · exact Or.inr ⟨[], rfl⟩
          · split
            · exact Or.inr ⟨[], rfl⟩
            · exact Or.inr ⟨_, rfl⟩

/-- Claim C8: in the buffered decompress loop, whenever a codec call is
followed by another one, the later call is made with exactly the byte
count the earlier call requested (the staging buffer is refilled with
exactly `toRead` bytes before the next call); and whenever a call
requests more than the staging-buffer capacity (with its input fully
consumed and a non-zero request), the loop aborts with the fatal
protocol-violation error 34 and makes no further codec call. -/
theorem FIO_frameLoop_refill_exact (codec : Nat → Nat → Option (Nat × Nat × Nat))
    (cap fuel avail staged k i s s2 c d t : Nat) :
    ((FIO_decompressFrameLoop codec cap fuel avail staged k).calls[i]? = some s →
      (FIO_decompressFrameLoop codec cap fuel avail staged k).calls[i + 1]? = some s2 →
      ∃ c2 d2 t2, codec (k + i) s = some (c2, d2, t2) ∧ s2 = t2)
    ∧ ((FIO_decompressFrameLoop codec cap fuel avail staged k).calls[i]? = some s →
      codec (k + i) s = some (c, d, t) →
      t ≠ 0 → s - c = 0 → cap < t →
      (FIO_decompressFrameLoop codec cap fuel avail staged k).error = some 34 ∧
      (FIO_decompressFrameLoop codec cap fuel avail staged k).calls[i + 1]? = none) := by
  induction fuel generalizing avail staged k i with
  | zero =>
    constructor
    · intro h1 _
      simp only [FIO_decompressFrameLoop, List.getElem?_nil] at h1
      exact absurd h1 (by simp)
    · intro h1 _ _ _ _
      simp only [FIO_decompressFrameLoop, List.getElem?_nil] at h1
      exact absurd h1 (by simp)
  | succ fuel ih =>
    cases hc : codec k staged with
    | none =>
      have hres : FIO_decompressFrameLoop codec cap (fuel + 1) avail staged k =
          ⟨[staged], 0, some 36⟩ := by
        simp only [FIO_decompressFrameLoop, hc]
      rw [hres]
      constructor
      · intro h1 h2
        cases i with
        | zero => simp at h2
        | succ j => simp at h1
      · intro h1 hcod _ _ _
        cases i with
        | zero =>
          simp only [List.getElem?_cons_zero, Option.some.injEq] at h1
          subst h1
          rw [Nat.add_zero, hc] at hcod
          cases hcod
        | succ j => simp at h1
    | some trip =>
      obtain ⟨c0, d0, t0⟩ := trip
      by_cases h0 : t0 = 0
      · have hres : FIO_decompressFrameLoop codec cap (fuel + 1) avail staged k =
            ⟨[staged], d0, none⟩ := by
          simp only [FIO_decompressFrameLoop, hc]
          rw [if_pos h0]
        rw [hres]
        constructor
        · intro h1 h2
          cases i with
          | zero => simp at h2
          | succ j => simp at h1
        · intro h1 hcod ht _ _
          cases i with
          | zero =>
            simp only [List.getElem?_cons_zero, Option.some.injEq] at h1
            subst h1
            rw [Nat.add_zero, hc] at hcod
            simp only [Option.some.injEq, Prod.mk.injEq] at hcod
            obtain ⟨rfl, rfl, rfl⟩ := hcod
            exact absurd h0 ht
          | succ j => simp at h1
      · by_cases h38 : staged - c0 ≠ 0
        · have hres : FIO_decompressFrameLoop codec cap (fuel + 1) avail staged k =
              ⟨[staged], d0, some 38⟩ := by
            simp only [FIO_decompressFrameLoop, hc]
            rw [if_neg h0, if_pos h38]
          rw [hres]
          constructor
          · intro h1 h2
            cases i with
            | zero => simp at h2
            | succ j => simp at h1
          · intro h1 hcod _ hsc _
            cases i with
            | zero =>
              simp only [List.getElem?_cons_zero, Option.some.injEq] at h1
              subst h1
              rw [Nat.add_zero, hc] at hcod
              simp only [Option.some.injEq, Prod.mk.injEq] at hcod
              obtain ⟨rfl, rfl, rfl⟩ := hcod
              exact absurd hsc h38
            | succ j => simp at h1
        · by_cases h34 : cap < t0
          · have hres : FIO_decompressFrameLoop codec cap (fuel + 1) avail staged k =
                ⟨[staged], d0, some 34⟩ := by
              simp only [FIO_decompressFrameLoop, hc]
              rw [if_neg h0, if_neg h38, if_pos h34]
            rw [hres]
            constructor
            · intro h1 h2
              cases i with
              | zero => simp at h2
              | succ j => simp at h1
            · intro h1 _ _ _ _
              cases i with
              | zero => exact ⟨rfl, rfl⟩
              | succ j => simp at h1
          · by_cases h35 : avail < t0
            · have hres : FIO_decompressFrameLoop codec cap (fuel + 1) avail staged k =
                  ⟨[staged], d0, some 35⟩ := by
                simp only [FIO_decompressFrameLoop, hc]
                rw [if_neg h0, if_neg h38, if_neg h34, if_pos h35]
              rw [hres]
              constructor
              · intro h1 h2
                cases i with
                | zero => simp at h2
                | succ j => simp at h1
              · intro h1 hcod _ _ hcap
                cases i with
                | zero =>
                  simp only [List.getElem?_cons_zero, Option.some.injEq] at h1
                  subst h1
                  rw [Nat.add_zero, hc] at hcod
                  simp only [Option.some.injEq, Prod.mk.injEq] at hcod
                  obtain ⟨rfl, rfl, rfl⟩ := hcod
                  exact absurd hcap h34
                | succ j => simp at h1
            · have hres : FIO_decompressFrameLoop codec cap (fuel + 1) avail staged k =
                  ⟨staged ::
                      (FIO_decompressFrameLoop codec cap fuel (avail - t0) t0 (k + 1)).calls,
                    d0 + (FIO_decompressFrameLoop codec cap fuel (avail - t0) t0 (k + 1)).frameSize,
                    (FIO_decompressFrameLoop codec cap fuel (avail - t0) t0 (k + 1)).error⟩ := by
                simp only [FIO_decompressFrameLoop, hc]
                rw [if_neg h0, if_neg h38, if_neg h34, if_neg h35]
              rw [hres]
              constructor
              · intro h1 h2
                cases i with
                | zero =>
                  simp only [List.getElem?_cons_zero, Option.some.injEq] at h1
                  subst h1
                  simp only [List.getElem?_cons_succ] at h2
                  rcases FIO_frameLoop_calls_shape codec cap fuel (avail - t0) t0 (k + 1) with
                    hsh | ⟨tl, hsh⟩
                  · rw [hsh] at h2
                    simp at h2
                  · rw [hsh] at h2
                    simp only [List.getElem?_cons_zero, Option.some.injEq] at h2
                    exact ⟨c0, d0, t0, by rw [Nat.add_zero]; exact hc, h2.symm⟩
                | succ j =>
                  simp only [List.getElem?_cons_succ] at h1 h2
                  have hih := (ih (avail - t0) t0 (k + 1) j).1 h1 h2
                  rwa [show k + 1 + j = k + (j + 1) from by omega] at hih
              · intro h1 hcod ht hsc hcap
                cases i with
                | zero =>
                  simp only [List.getElem?_cons_zero, Option.some.injEq] at h1
                  subst h1
                  rw [Nat.add_zero, hc] at hcod
                  simp only [Option.some.injEq, Prod.mk.injEq] at hcod
                  obtain ⟨rfl, rfl, rfl⟩ := hcod
                  exact absurd hcap h34
                | succ j =>
                  simp only [List.getElem?_cons_succ] at h1 ⊢
                  have hcod2 : codec (k + 1 + j) s = some (c, d, t) := by
                    rwa [show k + 1 + j = k + (j + 1) from by omega]
                  exact (ih (avail - t0) t0 (k + 1) j).2 h1 hcod2 ht hsc hcap

/-- A concrete codec-call oracle: the first call consumes the 4 staged
bytes, produces 10 output bytes and requests 3 more; the second call
consumes them and reports the frame complete. -/
def wCodec : Nat → Nat → Option (Nat × Nat × Nat) :=
  fun k _ => if k = 0 then some (4, 10, 3) else some (3, 5, 0)

/-- Witness for `FIO_frameLoop_refill_exact`: running the loop under
`wCodec` with capacity 100 and 50 available bytes records calls `[4, 3]`,
and the staged count of the second call is exactly the 3 bytes the first call
requested. -/
theorem FIO_frameLoop_refill_exact_witness :
    ∃ c2 d2 t2, wCodec (0 + 0) 4 = some (c2, d2, t2) ∧ 3 = t2 :=
  (FIO_frameLoop_refill_exact wCodec 100 5 50 4 0 0 4 3 0 0 0).1 (by decide) (by decide)
